import Mathlib

/-!
Verification of the `scrapdf` scraper (package `internal/scraper`,
file `scraper.go`) against its natural-language specification.

Strings are modelled as `List Char`.  The parsed HTML tree of
`golang.org/x/net/html` is modelled by the inductive `Node`; the
extractor walk `extractText` consults the parent node's `Data`, the
grandparent's `Data` and sibling position, so those are passed as
explicit context arguments in the embedding.
-/

/-- Models Go `unicode.IsSpace` on the Latin-1 range (the characters
relevant to the claims): space, tab, newline, vertical tab, form feed,
carriage return, NEL and NBSP. -/
def isSpaceChar (c : Char) : Bool :=
  c = ' ' || c = '\t' || c = '\n' || c = '\x0b' || c = '\x0c' || c = '\r' ||
  c = '\x85' || c = '\xa0'

/-- Models Go `strings.TrimLeftFunc(s, unicode.IsSpace)`. -/
def trimLeftChars (l : List Char) : List Char := l.dropWhile isSpaceChar

/-- Models Go `strings.TrimRightFunc(s, unicode.IsSpace)`. -/
def trimRightChars (l : List Char) : List Char :=
  (l.reverse.dropWhile isSpaceChar).reverse

/-- Models Go `strings.TrimSpace`. -/
def trimChars (l : List Char) : List Char := trimRightChars (trimLeftChars l)

/-- Models Go `strings.HasSuffix`. -/
def hasSuffixChars (l suf : List Char) : Bool := List.isSuffixOf suf l

/-- The newline character. -/
def nl : Char := '\n'

/-- The parsed HTML tree consumed by the extractor: `golang.org/x/net/html`
node kinds Document, Element, Text and Comment (`scraper.go` only
distinguishes these).  An element carries its tag (`Node.Data`) and its
children in document order. -/
inductive Node where
  | text (data : List Char)
  | comment (data : List Char)
  | element (tag : String) (children : List Node)
  | document (children : List Node)

/-- The styling-tag set of `stripHTMLTags` (`scraper.go:196-208`). -/
def stylingTags : List String :=
  ["strong", "b", "em", "i", "u", "span", "mark", "small", "sub", "sup", "code"]

/-- Membership in `stylingTags` (the Go map lookup `stylingTags[d]`). -/
def isStylingTag (t : String) : Bool := stylingTags.contains t

/-- The suppressed tags of the walk (`scraper.go:211-217`). -/
def isSuppressedTag (t : String) : Bool :=
  t = "script" || t = "style" || t = "meta" || t = "link" || t = "noscript"

/-- The heading cases of the parent-tag switch (`scraper.go:249`). -/
def isHeadingTag (t : String) : Bool :=
  t = "h1" || t = "h2" || t = "h3" || t = "h4" || t = "h5" || t = "h6"

/-- Walk state of `extractText`: the output builder plus the two
closure-captured booleans `lastNodeWasBlock` and `lastNodeWasText`
(`scraper.go:190-193`). -/
structure ExtState where
  buf : List Char
  lastWasBlock : Bool
  lastWasText : Bool
deriving DecidableEq, Repr

/-- The walk state at the start of an extraction call. -/
def ExtState.start : ExtState := ⟨[], false, false⟩

/-- `stylingTags[n.Parent.Data]` guarded by `n.Parent != nil`. -/
def parentIsStyling : Option String → Bool
  | some d => isStylingTag d
  | none => false

/-- The Text-node branch of `extractText` (`scraper.go:227-283`).
`parentData` is `n.Parent.Data` (`none` when `n.Parent == nil`),
`grandData` is `n.Parent.Parent.Data` (`none` when nil), and
`parentIsLast` is `n.Parent.NextSibling == nil`. -/
def emitText (parentData grandData : Option String) (parentIsLast : Bool)
    (st : ExtState) (data : List Char) : ExtState :=
  let text := if parentIsStyling parentData then trimRightChars data
              else trimChars data
  if text = [] then st
  else
    match parentData with
    | some pd =>
      if pd = "p" then
        ⟨st.buf ++ text ++ [nl, nl], true, false⟩
      else if pd = "li" then
        ⟨st.buf ++ '•' :: ' ' :: text ++ [nl], false, false⟩
      else if isHeadingTag pd then
        ⟨st.buf ++ (if st.lastWasBlock then [] else [nl]) ++ text ++ [nl, nl],
          true, false⟩
      else if pd = "a" then
        ⟨st.buf ++ (if st.lastWasText then [nl] else []) ++ text ++
          (if grandData = some "nav" ∧ parentIsLast then [nl] else []),
          false, true⟩
      else
        ⟨st.buf ++ (if st.lastWasText then [' '] else []) ++ text, false, true⟩
    | none =>
      { st with
        buf := st.buf ++ (if st.lastWasText then [' '] else []) ++ text,
        lastWasText := true }

mutual

/-- The recursive walk `extractText` of `scraper.go:210-289`.  The four
context arguments carry what the Go code reads off the node's links:
`parentData` = `n.Parent.Data`, `grandData` = `n.Parent.Parent.Data`,
`parentIsLast` = `n.Parent.NextSibling == nil`, and `isLast` =
`n.NextSibling == nil` (needed to compute `parentIsLast` for `n`'s own
children). -/
def extractText : Node → Option String → Option String → Bool → Bool →
    ExtState → ExtState
  | Node.comment _, _, _, _, _, st => st
  | Node.text d, pd, gd, pl, _, st => emitText pd gd pl st d
  | Node.element t cs, pd, _, _, il, st =>
    if isSuppressedTag t then st
    else if isStylingTag t then extractChildren cs (some t) pd il st
    else extractChildren cs (some t) pd il st
  | Node.document cs, pd, _, _, il, st =>
    extractChildren cs (some "") pd il st

/-- The child loop `for c := n.FirstChild; c != nil; c = c.NextSibling`
of `extractText`.  Here the context arguments are the ones the children
receive; each child's `isLast` is whether it closes the sibling list. -/
def extractChildren : List Node → Option String → Option String → Bool →
    ExtState → ExtState
  | [], _, _, _, st => st
  | c :: rest, pd, gd, pl, st =>
    extractChildren rest pd gd pl (extractText c pd gd pl rest.isEmpty st)

end

/-- The raw walk output: `textBuilder.String()` after `extractText(doc)`
(`scraper.go:291-294`). -/
def extractDoc (t : Node) : List Char :=
  (extractText t none none true true ExtState.start).buf

/-- Models Go `strings.ReplaceAll(content, "\n\n\n", "\n\n")`
(`scraper.go:295`): a single left-to-right non-overlapping pass. -/
def collapseNewlines : List Char → List Char
  | '\n' :: '\n' :: '\n' :: rest => '\n' :: '\n' :: collapseNewlines rest
  | c :: rest => c :: collapseNewlines rest
  | [] => []

/-- The post-processing of `stripHTMLTags` (`scraper.go:293-307`):
collapse triple newlines, trim, then pad the ending. -/
def finalizeContent (buf : List Char) : List Char :=
  let content := trimChars (collapseNewlines buf)
  if !(hasSuffixChars content [nl, nl]) && !content.isEmpty then
    if hasSuffixChars content [nl] then content ++ [nl]
    else content ++ [nl, nl]
  else content

/-- `stripHTMLTags` (`scraper.go:184-308`) applied to an
already-parsed tree (parsing is the external collaborator; on parse
failure the Go function returns early and never reaches this logic). -/
def stripHTMLTags (t : Node) : List Char := finalizeContent (extractDoc t)

/-! ### The clean-mode line filter and the render pipeline of `createPDF` -/

/-- Models Go `strings.Split(content, "\n")`. -/
def splitNl : List Char → List (List Char)
  | [] => [[]]
  | c :: rest =>
    let r := splitNl rest
    if c = nl then [] :: r
    else
      match r with
      | [] => [[c]]
      | h :: t => (c :: h) :: t

/-- Accumulator pass behind `fieldsOf` (current partially-read word is
`acc`, reversed). -/
def fieldsAux : List Char → List Char → List (List Char)
  | [], acc => if acc = [] then [] else [acc.reverse]
  | c :: rest, acc =>
    if isSpaceChar c then
      if acc = [] then fieldsAux rest []
      else acc.reverse :: fieldsAux rest []
    else fieldsAux rest (c :: acc)

/-- Models Go `strings.Fields`: the maximal runs of non-whitespace. -/
def fieldsOf (l : List Char) : List (List Char) := fieldsAux l []

/-- The clean-mode loop of `createPDF` (`scraper.go:154-166`): keep a
line when its trimmed form is empty, or when it has more than two
whitespace-delimited words. -/
def cleanLines : List (List Char) → List (List Char)
  | [] => []
  | line :: rest =>
    let trimmed := trimChars line
    if trimmed = [] then line :: cleanLines rest
    else if (fieldsOf trimmed).length > 2 then line :: cleanLines rest
    else cleanLines rest

/-- The text pipeline of `createPDF` (`scraper.go:144-172`) in the
`stripHTML = true` case: extraction, then (when `clean`) the line
filter joined back with newlines. -/
def pdfContent (clean : Bool) (t : Node) : List Char :=
  let content := stripHTMLTags t
  if clean then List.intercalate [nl] (cleanLines (splitNl content))
  else content

/-- The lines actually written to the PDF (`scraper.go:172-178`):
split on newlines, trim each, skip empties. -/
def pdfRenderedLines (clean : Bool) (t : Node) : List (List Char) :=
  ((splitNl (pdfContent clean t)).map trimChars).filter (fun l => !l.isEmpty)

/-! ### Archive entry naming (`createZip`) and the end of `ScrapeAndSave` -/

/-- The two fields of a parsed `net/url.URL` that `createZip` reads. -/
structure GoURL where
  host : String
  path : String
deriving DecidableEq, Repr

/-- Models Go `strings.Trim(s, "/")`. -/
def trimSlashes (l : List Char) : List Char :=
  ((l.dropWhile (fun c => c = '/')).reverse.dropWhile (fun c => c = '/')).reverse

/-- Models Go `strings.ReplaceAll(s, "/", "_")`. -/
def replaceSlashUnderscore (l : List Char) : List Char :=
  l.map (fun c => if c = '/' then '_' else c)

/-- The ZIP entry name computed by `createZip` (`scraper.go:326-334`). -/
def zipEntryName (u : GoURL) : List Char :=
  let urlPath := if u.path = "" || u.path = "/" then "index".data else u.path.data
  let urlPath := trimSlashes urlPath
  let urlPath := replaceSlashUnderscore urlPath
  u.host.data ++ '_' :: urlPath ++ ".pdf".data

/-- The names of the entries `createZip` writes, one per accumulated
`(url, pdfPath)` pair (`scraper.go:320-353`); the Go map is modelled as
an association list. -/
def createZipEntries (pdfs : List (GoURL × String)) : List (List Char) :=
  pdfs.map (fun p => zipEntryName p.1)

/-- Entry naming as worded by the spec, for comparison with the source
computation `zipEntryName`: empty or root path maps to the literal
token `index`; otherwise leading/trailing slashes are stripped and
internal slashes replaced with underscores; the final name is
`{host}_{sanitized-path}.pdf`. -/
def specEntryName (u : GoURL) : List Char :=
  let sanitized :=
    if u.path = "" || u.path = "/" then "index".data
    else replaceSlashUnderscore (trimSlashes u.path.data)
  u.host.data ++ '_' :: sanitized ++ ".pdf".data

/-- The archive decision at the end of `ScrapeAndSave`
(`scraper.go:127-134`): with no accumulated PDFs the operation fails
and no archive is written; otherwise the archive is created with one
entry per pair. -/
def finishScrape (pdfs : List (GoURL × String)) :
    Except String (List (List Char)) :=
  if pdfs.length > 0 then Except.ok (createZipEntries pdfs)
  else Except.error "no pages were successfully scraped"

/-! ### The `OnResponse` callback and the visited set -/

/-- The shared scraper state touched by the `OnResponse` callback: the
visited set (`sync.Map`) and the url-to-pdf map, both modelled as
lists. -/
structure CrawlState where
  visited : List String
  pdfs : List (String × String)
deriving DecidableEq, Repr

/-- One crawler response callback delivery: the request URL string,
the temp filename it would render to, and whether `createPDF`
succeeds. -/
structure ResponseEvent where
  url : String
  filename : String
  renderOk : Bool

/-- The `OnResponse` callback body (`scraper.go:92-120`).  The
`LoadOrStore` on the visited map is one atomic step: it both tests and
records the URL.  On a render failure the PDF is not recorded. -/
def onResponse (st : CrawlState) (e : ResponseEvent) : CrawlState :=
  if st.visited.contains e.url then st
  else
    let st' : CrawlState := ⟨e.url :: st.visited, st.pdfs⟩
    if e.renderOk then ⟨st'.visited, (e.url, e.filename) :: st'.pdfs⟩
    else st'

/-- A crawl run: an arbitrary serialization of the concurrently
dispatched callback deliveries (each `LoadOrStore`-guarded callback
executes atomically with respect to the visited set), starting from the
fresh state of `NewScraper`. -/
def runCrawl (events : List ResponseEvent) : CrawlState :=
  events.foldl onResponse ⟨[], []⟩

/-! ### Splicing styling elements out of a tree (claim C3) -/

mutual

/-- Splice every styling element out of a tree, replacing it by its
(recursively spliced) children in place. -/
def spliceStyling : Node → Node
  | Node.document cs => Node.document (spliceStylingList cs)
  | Node.element t cs => Node.element t (spliceStylingList cs)
  | n => n

/-- Splice styling elements out of a sibling list. -/
def spliceStylingList : List Node → List Node
  | [] => []
  | Node.element t cs :: rest =>
    if isStylingTag t then spliceStylingList cs ++ spliceStylingList rest
    else Node.element t (spliceStylingList cs) :: spliceStylingList rest
  | n :: rest => spliceStyling n :: spliceStylingList rest

end

/-! ### Predicates used to state the claims -/

/-- A node the walk skips outright: a comment, or an element with a
suppressed tag (`scraper.go:211-217`). -/
def contributesNothing : Node → Bool
  | Node.comment _ => true
  | Node.element t _ => isSuppressedTag t
  | _ => false

/-- A document containing only suppressed tags or comments. -/
def suppressedOnlyDoc : Node → Bool
  | Node.document cs => cs.all contributesNothing
  | n => contributesNothing n

/-! ### Helper lemmas -/

/-- A `dropWhile` result is empty or starts with a character failing
the predicate. -/
theorem dropWhile_shape (p : Char → Bool) (l : List Char) :
    l.dropWhile p = [] ∨ ∃ c t, l.dropWhile p = c :: t ∧ p c = false := by
  induction l with
  | nil => left; rfl
  | cons a l ih =>
    by_cases h : p a
    · simpa [List.dropWhile_cons, h] using ih
    · right
      exact ⟨a, l, by simp [List.dropWhile_cons, h], by simp [h]⟩

/-- A trimmed string is empty or ends in a non-whitespace character. -/
theorem trimChars_shape (l : List Char) :
    trimChars l = [] ∨ ∃ m c, trimChars l = m ++ [c] ∧ isSpaceChar c = false := by
  unfold trimChars trimRightChars trimLeftChars
  rcases dropWhile_shape isSpaceChar (l.dropWhile isSpaceChar).reverse with
    h | ⟨c, t, h, hc⟩
  · left; rw [h]; rfl
  · right; exact ⟨t.reverse, c, by rw [h]; simp, hc⟩

/-- Two lists ending in single elements can only be in the suffix
relation when those last elements agree. -/
theorem suffix_last_eq {p l : List Char} {a b : Char}
    (h : (p ++ [a]) <:+ (l ++ [b])) : a = b := by
  obtain ⟨q, hq⟩ := h
  rw [← List.append_assoc] at hq
  have := congrArg List.getLast? hq
  simpa [List.getLast?_concat] using this

/-- Cancelling a common tail preserves the suffix relation. -/
theorem suffix_append_cancel {p l s : List Char} (h : (p ++ s) <:+ (l ++ s)) :
    p <:+ l := by
  obtain ⟨q, hq⟩ := h
  rw [← List.append_assoc] at hq
  exact ⟨q, List.append_cancel_right hq⟩

/-- Every `finalizeContent` value is empty or ends in exactly two
newline characters. -/
theorem finalizeContent_shape (buf : List Char) :
    finalizeContent buf = [] ∨
      (hasSuffixChars (finalizeContent buf) [nl, nl] = true ∧
        hasSuffixChars (finalizeContent buf) [nl, nl, nl] = false) := by
  rcases trimChars_shape (collapseNewlines buf) with h | ⟨m, c, h, hc⟩
  · left; unfold finalizeContent; rw [h]; rfl
  · have hcnl : ¬ c = nl := by
      intro e
      rw [e] at hc
      exact absurd hc (by decide)
    have hno2 : hasSuffixChars (m ++ [c]) [nl, nl] = false := by
      simp only [hasSuffixChars, Bool.eq_false_iff, ne_eq,
        List.isSuffixOf_iff_suffix]
      intro hs
      exact hcnl (suffix_last_eq (p := [nl]) hs).symm
    have hno1 : hasSuffixChars (m ++ [c]) [nl] = false := by
      simp only [hasSuffixChars, Bool.eq_false_iff, ne_eq,
        List.isSuffixOf_iff_suffix]
      intro hs
      exact hcnl (suffix_last_eq (p := []) hs).symm
    have hval : finalizeContent buf = (m ++ [c]) ++ [nl, nl] := by
      unfold finalizeContent
      rw [h]
      simp [hno2, hno1]
    rw [hval]
    right
    constructor
    · simp only [hasSuffixChars, List.isSuffixOf_iff_suffix]
      exact List.suffix_append (m ++ [c]) [nl, nl]
    · simp only [hasSuffixChars, Bool.eq_false_iff, ne_eq,
        List.isSuffixOf_iff_suffix]
      intro hs
      have : ([nl] : List Char) <:+ m ++ [c] :=
        suffix_append_cancel (s := [nl, nl]) hs
      exact hcnl (suffix_last_eq (p := []) this).symm

/-- A comment or suppressed element leaves the walk state untouched. -/
theorem contributesNothing_extract {n : Node} (h : contributesNothing n = true)
    (pd gd : Option String) (pl il : Bool) (st : ExtState) :
    extractText n pd gd pl il st = st := by
  cases n with
  | text d => simp [contributesNothing] at h
  | comment d => rfl
  | element t cs =>
    have ht : isSuppressedTag t = true := by simpa [contributesNothing] using h
    simp [extractText, ht]
  | document cs => simp [contributesNothing] at h

/-- A sibling list of comments and suppressed elements leaves the walk
state untouched. -/
theorem extractChildren_skipped {cs : List Node}
    (h : cs.all contributesNothing = true) (pd gd : Option String) (pl : Bool)
    (st : ExtState) : extractChildren cs pd gd pl st = st := by
  induction cs generalizing st with
  | nil => rfl
  | cons c rest ih =>
    rw [List.all_cons, Bool.and_eq_true] at h
    simp only [extractChildren]
    rw [contributesNothing_extract h.1, ih h.2]

/-! ### Claims -/

/-- C1: for every parsed tree, the result of `stripHTMLTags`, when
non-empty, ends with exactly two trailing newline characters; and a
document from which the walk emits no text yields the empty string,
not a string of trailing newlines. -/
theorem C1_trailing_newlines (t : Node) :
    (stripHTMLTags t ≠ [] →
      hasSuffixChars (stripHTMLTags t) [nl, nl] = true ∧
      hasSuffixChars (stripHTMLTags t) [nl, nl, nl] = false) ∧
    (extractDoc t = [] → stripHTMLTags t = []) := by
  constructor
  · intro hne
    unfold stripHTMLTags at hne ⊢
    rcases finalizeContent_shape (extractDoc t) with h | h
    · exact absurd h hne
    · exact h
  · intro h
    unfold stripHTMLTags
    rw [h]
    decide

/-- Witness for C1: a paragraph document (non-empty output, ending in
exactly two newlines) and an empty document (empty output). -/
theorem C1_trailing_newlines_witness :
    (stripHTMLTags (Node.document [Node.element "p" [Node.text "Hello World".data]]) ≠ [] ∧
      hasSuffixChars (stripHTMLTags (Node.document [Node.element "p"
        [Node.text "Hello World".data]])) [nl, nl] = true ∧
      hasSuffixChars (stripHTMLTags (Node.document [Node.element "p"
        [Node.text "Hello World".data]])) [nl, nl, nl] = false) ∧
    (extractDoc (Node.document [Node.comment " c ".data]) = [] ∧
      stripHTMLTags (Node.document [Node.comment " c ".data]) = []) :=
  ⟨⟨by decide, (C1_trailing_newlines (Node.document [Node.element "p"
      [Node.text "Hello World".data]])).1 (by decide)⟩,
   ⟨by decide, (C1_trailing_newlines (Node.document
      [Node.comment " c ".data])).2 (by decide)⟩⟩

/-- C2: a Comment node or a suppressed element (`script`, `style`,
`meta`, `link`, `noscript`) contributes nothing to the output and its
descendants are not visited (the walk state is returned untouched);
consequently a document containing only such nodes extracts to the
empty string. -/
theorem C2_suppressed_nodes (n : Node) (pd gd : Option String) (pl il : Bool)
    (st : ExtState) :
    (contributesNothing n = true → extractText n pd gd pl il st = st) ∧
    (suppressedOnlyDoc n = true → stripHTMLTags n = []) := by
  constructor
  · intro h
    exact contributesNothing_extract h pd gd pl il st
  · intro h
    cases n with
    | document cs =>
      have hall : cs.all contributesNothing = true := by
        simpa [suppressedOnlyDoc] using h
      unfold stripHTMLTags extractDoc
      simp only [extractText]
      rw [extractChildren_skipped hall]
      decide
    | text d => simp [suppressedOnlyDoc, contributesNothing] at h
    | comment d =>
      unfold stripHTMLTags extractDoc
      rw [contributesNothing_extract (by simpa [suppressedOnlyDoc] using h)]
      decide
    | element tg cs =>
      unfold stripHTMLTags extractDoc
      rw [contributesNothing_extract (by simpa [suppressedOnlyDoc] using h)]
      decide

/-- Witness for C2: a script element inside a walk, and a document of
only comments and suppressed elements. -/
theorem C2_suppressed_nodes_witness :
    extractText (Node.element "script" [Node.text "console.log(1);".data])
        (some "body") (some "html") true false ⟨"abc".data, true, false⟩ =
      ⟨"abc".data, true, false⟩ ∧
    stripHTMLTags (Node.document [Node.comment " hidden ".data,
      Node.element "style" [Node.text "body \x7b color: red; \x7d".data],
      Node.element "noscript" [Node.element "p" [Node.text "hey".data]]]) = [] :=
  ⟨(C2_suppressed_nodes (Node.element "script"
      [Node.text "console.log(1);".data]) (some "body") (some "html") true false
      ⟨"abc".data, true, false⟩).1 (by decide),
   (C2_suppressed_nodes (Node.document [Node.comment " hidden ".data,
      Node.element "style" [Node.text "body \x7b color: red; \x7d".data],
      Node.element "noscript" [Node.element "p" [Node.text "hey".data]]])
      none none true true ExtState.start).2 (by decide)⟩

/-- C3 counterexample: extraction is not invariant under splicing
styling elements out.  For `<p><b>X</b>Y</p>` the code yields
`"XY\n\n"`, while the spliced tree `<p>XY</p>` (two text children)
yields `"X\n\nY\n\n"`: the text inside `b` keeps `b` as its dispatch
parent and so takes the inline default branch, not the `p` branch. -/
theorem C3_splice_counterexample :
    stripHTMLTags (Node.document [Node.element "p"
        [Node.element "b" [Node.text "X".data], Node.text "Y".data]]) =
      "XY\n\n".data ∧
    stripHTMLTags (spliceStyling (Node.document [Node.element "p"
        [Node.element "b" [Node.text "X".data], Node.text "Y".data]])) =
      "X\n\nY\n\n".data ∧
    stripHTMLTags (Node.document [Node.element "p"
        [Node.element "b" [Node.text "X".data], Node.text "Y".data]]) ≠
      stripHTMLTags (spliceStyling (Node.document [Node.element "p"
        [Node.element "b" [Node.text "X".data], Node.text "Y".data]])) := by
  decide

/-- C3 (amended): a styling element is not emitted itself and the walk
descends directly into its children in place — but the children are
dispatched with the styling element as their parent, so extraction is
not invariant under splicing the element out of the tree. -/
theorem C3_styling_transparent (t : String) (cs : List Node)
    (pd gd : Option String) (pl il : Bool) (st : ExtState)
    (h : isStylingTag t = true) :
    extractText (Node.element t cs) pd gd pl il st =
      extractChildren cs (some t) pd il st := by
  have hsup : isSuppressedTag t = false := by
    simp only [isStylingTag, stylingTags] at h
    simp only [List.contains_cons, List.contains_nil, Bool.or_eq_true,
      beq_iff_eq] at h
    rcases h with h|h|h|h|h|h|h|h|h|h|h|h <;> first | subst h; decide | exact absurd h (by decide)
  simp [extractText, hsup]

/-- Witness for C3 (amended): the `em` element is processed exactly as
its child list with `em` as parent context. -/
theorem C3_styling_transparent_witness :
    isStylingTag "em" = true ∧
    extractText (Node.element "em" [Node.text " hi ".data]) (some "p")
        (some "body") false true ExtState.start =
      extractChildren [Node.text " hi ".data] (some "em") (some "p") true
        ExtState.start :=
  ⟨by decide, C3_styling_transparent "em" [Node.text " hi ".data] (some "p")
    (some "body") false true ExtState.start (by decide)⟩

/-- C4: a non-empty trimmed Text node inside an `a` element emits a
leading newline exactly when the previous emission was inline text,
then the text, then a trailing newline exactly when the anchor sits in
a `nav` element (`pd`, the anchor's parent) as its last child (`il`);
the state becomes lastWasBlock = false, lastWasText = true. -/
theorem C4_anchor_emission (d : List Char) (pd gd : Option String)
    (pl il : Bool) (st : ExtState) (h : trimChars d ≠ []) :
    extractText (Node.element "a" [Node.text d]) pd gd pl il st =
      ⟨st.buf ++ (if st.lastWasText then [nl] else []) ++ trimChars d ++
        (if pd = some "nav" ∧ il then [nl] else []), false, true⟩ := by
  have h1 : isSuppressedTag "a" = false := by decide
  have h2 : isStylingTag "a" = false := by decide
  have h3 : isHeadingTag "a" = false := by decide
  simp [extractText, extractChildren, emitText, parentIsStyling, h1, h2, h3, h]

/-- Witness for C4: an anchor that is the last child of a `nav`, after
inline text, gains both a leading and a trailing newline. -/
theorem C4_anchor_emission_witness :
    trimChars " About ".data ≠ [] ∧
    extractText (Node.element "a" [Node.text " About ".data]) (some "nav")
        (some "body") false true ⟨"Home".data, false, true⟩ =
      ⟨"Home".data ++ [nl] ++ "About".data ++ [nl], false, true⟩ := by
  refine ⟨by decide, ?_⟩
  rw [C4_anchor_emission " About ".data (some "nav") (some "body") false true
    ⟨"Home".data, false, true⟩ (by decide)]
  decide

/-- C5: a non-empty trimmed Text node inside a heading `h1`..`h6`
emits a leading newline exactly when the walk is not already after a
block, then the text, then two newlines, and the state becomes
lastWasBlock = true, lastWasText = false; moreover
`extract("<h1>T</h1><p>C</p>")` is `"T\n\nC\n\n"`. -/
theorem C5_heading_emission (tg : String) (d : List Char)
    (pd gd : Option String) (pl il : Bool) (st : ExtState)
    (hh : isHeadingTag tg = true) (hd : trimChars d ≠ []) :
    extractText (Node.element tg [Node.text d]) pd gd pl il st =
      ⟨st.buf ++ (if st.lastWasBlock then [] else [nl]) ++ trimChars d ++
        [nl, nl], true, false⟩ ∧
    stripHTMLTags (Node.document [Node.element "html" [Node.element "head" [],
      Node.element "body" [Node.element "h1" [Node.text "T".data],
        Node.element "p" [Node.text "C".data]]]]) = "T\n\nC\n\n".data := by
  refine ⟨?_, by decide⟩
  have h6 : ((((tg = "h1" ∨ tg = "h2") ∨ tg = "h3") ∨ tg = "h4") ∨ tg = "h5") ∨
      tg = "h6" := by
    simpa [isHeadingTag] using hh
  rcases h6 with ((((h|h)|h)|h)|h)|h <;> subst h <;>
    simp [extractText, extractChildren, emitText, parentIsStyling,
      isSuppressedTag, isStylingTag, stylingTags, isHeadingTag, hd]

/-- Witness for C5: an `h2` heading directly after inline text (not
after a block) gets a leading newline and two trailing newlines. -/
theorem C5_heading_emission_witness :
    isHeadingTag "h2" = true ∧ trimChars " Title ".data ≠ [] ∧
    extractText (Node.element "h2" [Node.text " Title ".data]) (some "body")
        (some "html") true false ⟨"intro".data, false, true⟩ =
      ⟨"intro".data ++ [nl] ++ "Title".data ++ [nl, nl], true, false⟩ := by
  refine ⟨by decide, by decide, ?_⟩
  rw [(C5_heading_emission "h2" " Title ".data (some "body") (some "html")
    true false ⟨"intro".data, false, true⟩ (by decide) (by decide)).1]
  decide

/-- C6 counterexample: the extractor output for
`<p>A\n \nB</p>` contains the whitespace-only line `" "`, which is
non-empty with zero (hence at most two) whitespace-delimited words,
yet the clean-mode filter keeps it (its trimmed form is empty), so the
claim "every non-empty line with two or fewer words is dropped" fails
on a real extractor output. -/
theorem C6_whitespace_line_counterexample :
    [' '] ∈ splitNl (stripHTMLTags (Node.document [Node.element "p"
        [Node.text "A\n \nB".data]])) ∧
    [' '] ≠ [] ∧ (fieldsOf [' ']).length ≤ 2 ∧
    [' '] ∈ cleanLines (splitNl (stripHTMLTags (Node.document
        [Node.element "p" [Node.text "A\n \nB".data]]))) := by
  decide

/-- C6 (amended): the clean-mode loop keeps exactly the lines whose
whitespace-trimmed content is empty (so empty and whitespace-only
lines are preserved unchanged) or has more than two
whitespace-delimited words; it runs on the extractor output before the
render split, so bullet and heading decorations count toward a line's
word total — e.g. the two-word list item `A B` survives thanks to its
`•` marker. -/
theorem C6_clean_filter (ls : List (List Char)) :
    cleanLines ls = ls.filter (fun l =>
      (trimChars l).isEmpty || decide ((fieldsOf (trimChars l)).length > 2)) ∧
    pdfContent true (Node.document [Node.element "ul" [Node.element "li"
      [Node.text "A B".data]]]) =
      stripHTMLTags (Node.document [Node.element "ul" [Node.element "li"
      [Node.text "A B".data]]]) ∧
    stripHTMLTags (Node.document [Node.element "ul" [Node.element "li"
      [Node.text "A B".data]]]) = "• A B\n\n".data := by
  refine ⟨?_, by decide, by decide⟩
  induction ls with
  | nil => rfl
  | cons line rest ih =>
    simp only [cleanLines, List.filter_cons]
    by_cases h1 : trimChars line = []
    · simp [h1, ih]
    · by_cases h2 : (fieldsOf (trimChars line)).length > 2
      · simp [h1, h2, ih]
      · simp [h1, h2, ih]

/-- C7: `createZip` writes one entry per accumulated pair, and the
entry name computed by the source agrees with the spec's description:
`{host}_{sanitized-path}.pdf`, the empty or root path mapping to the
literal token `index`, leading and trailing slashes stripped, internal
slashes replaced with underscores. -/
theorem C7_zip_entry_naming (pdfs : List (GoURL × String)) (u : GoURL) :
    (createZipEntries pdfs).length = pdfs.length ∧
    zipEntryName u = specEntryName u := by
  constructor
  · simp [createZipEntries]
  · unfold zipEntryName specEntryName
    by_cases h : (u.path = "" || u.path = "/") = true
    · rw [if_pos h, if_pos h]
      have e : replaceSlashUnderscore (trimSlashes "index".data) =
          "index".data := by decide
      simp only [e]
    · rw [if_neg h, if_neg h]

/-- C8: with zero accumulated artifacts `ScrapeAndSave` fails with the
"no pages were successfully scraped" error and no archive is written;
with at least one artifact, archive creation is attempted with one
entry per artifact. -/
theorem C8_zero_artifacts (pdfs : List (GoURL × String)) :
    (pdfs = [] → finishScrape pdfs =
      Except.error "no pages were successfully scraped") ∧
    (pdfs ≠ [] → finishScrape pdfs = Except.ok (createZipEntries pdfs)) := by
  constructor
  · intro h
    subst h
    rfl
  · intro h
    unfold finishScrape
    rw [if_pos]
    exact List.length_pos.mpr h

/-- Witness for C8: the empty accumulation fails, a singleton archive
is attempted. -/
theorem C8_zero_artifacts_witness :
    finishScrape ([] : List (GoURL × String)) =
      Except.error "no pages were successfully scraped" ∧
    finishScrape [((⟨"example.com", "/"⟩ : GoURL), "f.pdf")] =
      Except.ok (createZipEntries [((⟨"example.com", "/"⟩ : GoURL), "f.pdf")]) :=
  ⟨(C8_zero_artifacts []).1 rfl,
   (C8_zero_artifacts [((⟨"example.com", "/"⟩ : GoURL), "f.pdf")]).2
     (by decide)⟩

/-- C9: the entry-naming computation is not injective — two distinct
URLs (differing only in a trailing slash) yield the same entry name,
so an archive built from distinct URLs can hold two entries with the
same name. -/
theorem C9_naming_not_injective :
    ∃ u1 u2 : GoURL, u1 ≠ u2 ∧ zipEntryName u1 = zipEntryName u2 ∧
      ¬ (createZipEntries [(u1, "f1.pdf"), (u2, "f2.pdf")]).Nodup := by
  refine ⟨⟨"example.com", "/a"⟩, ⟨"example.com", "/a/"⟩, ?_, ?_, ?_⟩ <;> decide

/-- One `OnResponse` delivery preserves: the recorded artifact URLs
are distinct, and every one of them is in the visited set. -/
theorem onResponse_inv {st : CrawlState} (e : ResponseEvent)
    (h1 : (st.pdfs.map Prod.fst).Nodup)
    (h2 : ∀ k ∈ st.pdfs.map Prod.fst, k ∈ st.visited) :
    ((onResponse st e).pdfs.map Prod.fst).Nodup ∧
      ∀ k ∈ (onResponse st e).pdfs.map Prod.fst,
        k ∈ (onResponse st e).visited := by
  unfold onResponse
  by_cases hc : st.visited.contains e.url = true
  · rw [if_pos hc]
    exact ⟨h1, h2⟩
  · have hnotin : e.url ∉ st.visited := by
      simpa [List.contains] using hc
    have hkey : e.url ∉ st.pdfs.map Prod.fst := fun hmem => hnotin (h2 _ hmem)
    rw [if_neg hc]
    by_cases hr : e.renderOk = true
    · rw [if_pos hr]
      constructor
      · rw [List.map_cons]
        exact List.nodup_cons.mpr ⟨hkey, h1⟩
      · intro k hk
        simp only [List.map_cons, List.mem_cons] at hk
        rcases hk with hk | hk
        · exact hk ▸ List.mem_cons_self _ _
        · exact List.mem_cons_of_mem _ (h2 _ hk)
    · rw [if_neg hr]
      exact ⟨h1, fun k hk => List.mem_cons_of_mem _ (h2 _ hk)⟩

/-- The invariant of `onResponse_inv` holds after any serialized run
of callback deliveries. -/
theorem runCrawl_fold_inv (events : List ResponseEvent) (st : CrawlState)
    (h1 : (st.pdfs.map Prod.fst).Nodup)
    (h2 : ∀ k ∈ st.pdfs.map Prod.fst, k ∈ st.visited) :
    ((events.foldl onResponse st).pdfs.map Prod.fst).Nodup ∧
      ∀ k ∈ (events.foldl onResponse st).pdfs.map Prod.fst,
        k ∈ (events.foldl onResponse st).visited := by
  induction events generalizing st with
  | nil => exact ⟨h1, h2⟩
  | cons e rest ih =>
    rw [List.foldl_cons]
    have step := onResponse_inv e h1 h2
    exact ih _ step.1 step.2

/-- C10: over every serialization of the concurrently dispatched
response callbacks (the `LoadOrStore` check-and-record being one
atomic step per URL), at most one artifact is ever recorded per
distinct URL — the recorded URL keys are pairwise distinct — and in
particular two deliveries of the same URL from two discovery paths
leave exactly one artifact, the first one. -/
theorem C10_at_most_one_artifact (events : List ResponseEvent) :
    ((runCrawl events).pdfs.map Prod.fst).Nodup ∧
    ∀ u f g, runCrawl [⟨u, f, true⟩, ⟨u, g, true⟩] =
      ⟨[u], [(u, f)]⟩ := by
  constructor
  · exact (runCrawl_fold_inv events ⟨[], []⟩ (by simp) (by simp)).1
  · intro u f g
    simp [runCrawl, onResponse, List.contains]
